import Mathlib

/-!
Verification of the paginated comment-scraping subsystem of the
sentiment-analysis repository: the two platform clients
(`src/scrapers/tiktok_scraper_module.py`, platform B, and
`src/scrapers/instagram_scraper_module.py`, platform A) and the shared
URL-identifier extraction (`src/utils.py`).

The embedding is shallow: HTTP endpoints become oracle functions supplied as
parameters, unbounded `while` loops become fuel-indexed recursions whose
`none`/truncated results mark "did not terminate within the fuel budget", and
Python exceptions become `Except`/`Option` values.  JSON scalar values are
modelled by `Val` (null / string / integer); object-valued JSON fields that the
scrapers traverse are flattened into the oracle record types, with `Option Val`
distinguishing an absent key (`none`) from a present value (`some v`, where
`v` may be `Val.vnull` for an explicit JSON null).
-/

/-- A flat Python/JSON scalar value: `None`, a string, or an integer.
The scrapers' normalized records only ever hold scalars, so object and list
values are not represented here; where the source traverses an object we model
the traversed path directly in the corresponding record type. -/
inductive Val where
  | vnull
  | vstr (s : String)
  | vint (n : Int)
deriving DecidableEq, Repr

/-- Python truthiness of a scalar, as used by `if parsed_data.get('total_reply')`
in `tiktok_scraper_module.py` line 79: `None` and `0` and `""` are falsy. -/
def Val.truthy : Val → Bool
  | .vnull => false
  | .vstr s => s ≠ ""
  | .vint n => n ≠ 0

/-- Whether a scalar is the Python `None` / JSON null. -/
def Val.isNull : Val → Bool
  | .vnull => true
  | _ => false

/-- `jmespath.search` semantics for a single projected path: an absent path
yields `None`, a present path yields its value (which may itself be null).
The `Option Val` argument is the raw field (`none` = path absent). -/
def jm (field : Option Val) : Val := field.getD .vnull

/-- Python `d.get(key, default)` on a field modelled as `Option Val`:
the stored value (possibly `None`) if the key is present, else the default.
Used by the Instagram node parsing (`node.get("created_at", "")`, ...). -/
def pyGet (field : Option Val) (dflt : Val) : Val := field.getD dflt

/-- A Python dict with string keys and scalar values, as passed around by the
standardization code (`asdict(comment)` entries and the normalized records). -/
def PyDict := List (String × Val)

/-- Python `d.get(key, default)` on an explicit dict value. -/
def dictGet (d : PyDict) (k : String) (dflt : Val) : Val :=
  match d.find? (fun p => p.1 == k) with
  | some p => p.2
  | none => dflt

/-- The normalized, platform-agnostic comment record
`{post_id, username, created_at, comment_text}` (spec section 3). -/
structure NormComment where
  post_id : Val
  username : Val
  created_at : Val
  comment_text : Val
deriving DecidableEq, Repr

/-- The normalized record rendered back as the Python dict literal built at
`tiktok_scraper_module.py` lines 199-204 / `instagram_scraper_module.py`
lines 146-151 (insertion order of the source's dict literal). -/
def NormComment.toDict (r : NormComment) : PyDict :=
  [("post_id", r.post_id), ("username", r.username),
   ("created_at", r.created_at), ("comment_text", r.comment_text)]

/-- Events observable during a walk: a main-walk page fetch, the main-walk
inter-page sleep, a reply-walk page fetch (tagged with the parent comment id),
and the reply-walk inter-page sleep. -/
inductive Ev where
  | fetch (page : Nat)
  | sleep (d : Nat)
  | rfetch (cid : String) (page : Nat)
  | rsleep (cid : String) (d : Nat)
deriving DecidableEq, Repr

/-! ## Platform B: TikTok client (`src/scrapers/tiktok_scraper_module.py`) -/

/-- A raw TikTok comment node as consumed by `TikTokScraper.__parse_comment`
(lines 58-85).  Each field is the value found at the corresponding jmespath
path (`cid`, `user.unique_id`, `user.nickname`, `text`, `create_time`,
`user.avatar_thumb.url_list[0]`, `reply_comment_total`); `none` means the
path is absent from the raw JSON. -/
structure RawTT where
  cid : Option Val
  user_unique_id : Option Val
  user_nickname : Option Val
  text : Option Val
  create_time : Option Val
  avatar_url : Option Val
  reply_comment_total : Option Val
deriving Repr

/-- The platform-native TikTok `Comment` dataclass (lines 13-27): seven scalar
fields plus an owned list of reply comments. -/
inductive TTComment where
  | mk (comment_id username nickname comment create_time avatar total_reply : Val)
      (replies : List TTComment)

def TTComment.comment_id : TTComment → Val | .mk x _ _ _ _ _ _ _ => x
def TTComment.username : TTComment → Val | .mk _ x _ _ _ _ _ _ => x
def TTComment.nickname : TTComment → Val | .mk _ _ x _ _ _ _ _ => x
def TTComment.comment : TTComment → Val | .mk _ _ _ x _ _ _ _ => x
def TTComment.create_time : TTComment → Val | .mk _ _ _ _ x _ _ _ => x
def TTComment.avatar : TTComment → Val | .mk _ _ _ _ _ x _ _ => x
def TTComment.total_reply : TTComment → Val | .mk _ _ _ _ _ _ x _ => x
def TTComment.replies : TTComment → List TTComment | .mk _ _ _ _ _ _ _ rs => rs

/-- The reply endpoint as an oracle: comment id and page number to either a
transport failure (`.error`) or the raw reply list of that page
(`response.json().get('comments', [])` in `get_replies`, lines 98-119). -/
abbrev TTReplyFn := Val → Nat → Except Unit (List RawTT)

mutual

/-- `TikTokScraper.__parse_comment` (lines 58-85), fuel-indexed because reply
resolution recurses through the reply walk.  The jmespath projection turns
absent paths into null; replies are fetched eagerly iff `total_reply` is
truthy; finally the logging line `len(comment.comment)` (line 83) raises
`TypeError` unless the text is a string, so a non-string text yields
`.error` (caught further up by the enclosing page fetch).  Fuel exhaustion
(the `0` case) stands for a reply walk that does not terminate. -/
def ttParseComment (rp : TTReplyFn) : Nat → RawTT → Except Unit TTComment
  | 0, _ => .error ()
  | fuel+1, data =>
    let comment_id := jm data.cid
    let total_reply := jm data.reply_comment_total
    let text := jm data.text
    let replies := if total_reply.truthy then ttGetAllReplies rp fuel comment_id 1 else []
    match text with
    | .vstr s =>
      .ok (.mk comment_id (jm data.user_unique_id) (jm data.user_nickname)
        (.vstr s) (jm data.create_time) (jm data.avatar_url) total_reply replies)
    | _ => .error ()

/-- `TikTokScraper.get_all_replies` (lines 87-96): page loop starting at the
given page, stopping at the first page that yields zero parsed replies.
Fuel bounds the number of pages visited; an exhausted budget truncates. -/
def ttGetAllReplies (rp : TTReplyFn) : Nat → Val → Nat → List TTComment
  | 0, _, _ => []
  | fuel+1, cid, page =>
    let rs := ttGetReplies rp fuel cid page
    if rs.isEmpty then [] else rs ++ ttGetAllReplies rp fuel cid (page+1)

/-- `TikTokScraper.get_replies` (lines 98-119): one reply-page fetch.  The
whole body is wrapped in `try/except` returning `[]`, so both a transport
failure and a parse failure of any reply on the page produce `[]`. -/
def ttGetReplies (rp : TTReplyFn) : Nat → Val → Nat → List TTComment
  | 0, _, _ => []
  | fuel+1, cid, page =>
    match rp cid page with
    | .error _ => []
    | .ok raws =>
      match raws.mapM (ttParseComment rp fuel) with
      | .ok cs => cs
      | .error _ => []

end

/-- The jmespath projection of one main-endpoint response
(`get_comments`, lines 151-161): `caption` and `video_url` hold the values at
`comments[0].share_info.title` / `.url` (null when absent — the multiselect
hash always contains the keys, so the later `.get(..., '')` defaults are
dead), `comments` is the raw comment list (`none` models a null `comments`
path, over which Python's `for` raises), and `has_more` is the flag
(a null/absent flag is collapsed to `false`, its truthiness at the use
site `if not comments.has_more`). -/
structure TTResp where
  caption : Val
  video_url : Val
  comments : Option (List RawTT)
  has_more : Bool
deriving Repr

/-- The TikTok API as an oracle: the main comment-list endpoint by page
number plus the reply endpoint. -/
structure TTOracle where
  pages : Nat → Except Unit TTResp
  replyPages : TTReplyFn

/-- The `Comments` dataclass (lines 29-45). -/
structure TTComments where
  caption : Val
  video_url : Val
  comments : List TTComment
  has_more : Bool

/-- `TikTokScraper.get_comments` (lines 135-174): fetch one main page.  Any
exception inside the `try` block — the transport failure, iterating a null
`comments` value, or a parse failure of any comment on the page — is caught
and yields the default `Comments(comments=[], caption='', video_url='',
has_more=False)`. -/
def ttGetComments (o : TTOracle) (fuel : Nat) (page : Nat) : TTComments :=
  match o.pages page with
  | .error _ => ⟨.vstr "", .vstr "", [], false⟩
  | .ok resp =>
    match resp.comments with
    | none => ⟨.vstr "", .vstr "", [], false⟩
    | some raws =>
      match raws.mapM (ttParseComment o.replyPages fuel) with
      | .error _ => ⟨.vstr "", .vstr "", [], false⟩
      | .ok cs => ⟨resp.caption, resp.video_url, cs, resp.has_more⟩

/-- The `while True` loop of `TikTokScraper.get_all_comments` (lines 126-131),
starting at the given page: fetch the page; if its `has_more` is falsy break
(WITHOUT appending that page's comments); otherwise append them and continue
with the next page.  Returns the accumulated comments (`none` when the loop
does not exit within `pf` iterations) together with the fetch trace. -/
def ttLoop (o : TTOracle) (fuel : Nat) : Nat → Nat → Option (List TTComment) × List Ev
  | 0, _ => (none, [])
  | pf+1, page =>
    let c := ttGetComments o fuel page
    if c.has_more then
      let r := ttLoop o fuel pf (page+1)
      ((c.comments ++ ·) <$> r.1, .fetch page :: r.2)
    else (some [], [.fetch page])

/-- `TikTokScraper.get_all_comments` (lines 121-133): fetch page 1 to seed the
aggregate, then run the loop from page 2, extending the page-1 comment list.
The page-1 `has_more` flag is copied into the aggregate but never branched
on. -/
def ttGetAllComments (o : TTOracle) (fuel pf : Nat) : Option TTComments × List Ev :=
  let data := ttGetComments o fuel 1
  let r := ttLoop o fuel pf 2
  ((fun rest => ⟨data.caption, data.video_url, data.comments ++ rest, data.has_more⟩) <$> r.1,
   .fetch 1 :: r.2)

/-- `asdict(comment)` restricted to the scalar fields (lines 199-204 only ever
read `username`, `create_time` and `comment`; the nested `replies` entry of
the real `asdict` is never consulted by the standardization and has no flat
representation, so it is omitted from the dict model). -/
def ttAsDict (c : TTComment) : PyDict :=
  [("comment_id", c.comment_id), ("username", c.username), ("nickname", c.nickname),
   ("comment", c.comment), ("create_time", c.create_time), ("avatar", c.avatar),
   ("total_reply", c.total_reply)]

/-- The standardization dict literal of `TikTokScraper.scrape_comments`
(lines 199-204), applied to one comment dict: `post_id` is the video id,
`username` is `comment.get('username','')`, `created_at` is
`comment.get('create_time','')` and `comment_text` is
`comment.get('comment','')`. -/
def ttStandardizeDict (aweme_id : String) (c : PyDict) : NormComment :=
  { post_id := .vstr aweme_id,
    username := dictGet c "username" (.vstr ""),
    created_at := dictGet c "create_time" (.vstr ""),
    comment_text := dictGet c "comment" (.vstr "") }

/-- `TikTokScraper.scrape_comments` (lines 180-212): run the full walk, then
standardize each element of `comments.dict['comments']` — the TOP-LEVEL
comment dicts.  `none` marks a walk that does not terminate within the fuel
budget; the surrounding `try/except` returns `[]` on an exception, but no
step of this pipeline raises one. -/
def ttScrapeComments (o : TTOracle) (aweme_id : String) (fuel pf : Nat) :
    Option (List NormComment) :=
  ((ttGetAllComments o fuel pf).1).map fun cs =>
    cs.comments.map fun c => ttStandardizeDict aweme_id (ttAsDict c)

mutual

/-- Pre-order flattening of a TikTok comment tree (each parent followed by all
of its descendant replies) — the shape the spec asserts for the output of
`scrape_comments`.  Not present in the source; stated here to compare with
what the code actually returns. -/
def ttFlatten : TTComment → List TTComment
  | .mk i u n t ct av tr rs => .mk i u n t ct av tr rs :: ttFlattenList rs

/-- Pre-order flattening of a list of TikTok comment trees. -/
def ttFlattenList : List TTComment → List TTComment
  | [] => []
  | c :: rest => ttFlatten c ++ ttFlattenList rest

end

/-! ## Platform A: Instagram client (`src/scrapers/instagram_scraper_module.py`) -/

/-- A parsed Instagram comment node as read by `fetch_comments` /
`fetch_replies`.  `id` is `node.get("id")` (the parent-comment id used to key
reply fetches; a missing id is collapsed to `""`); `ownerUsername` is the
value at the path `owner.username` traversed by
`node.get("owner", {}).get("username", "")` (`none` = some key along the
chain absent, so the default fires); `created_at` / `text` are the node's own
keys; `childCount` is `node.get("edge_threaded_comments", {}).get("count", 0)`
(0 when absent). -/
structure IGNode where
  id : String
  ownerUsername : Option Val
  created_at : Option Val
  text : Option Val
  childCount : Nat
deriving Repr

/-- The 4-field dict literal built for a node at lines 146-151 (top-level
comments) and, with the identical shape, at lines 95-100 (replies). -/
def igNormalize (shortcode : String) (n : IGNode) : NormComment :=
  { post_id := .vstr shortcode,
    username := pyGet n.ownerUsername (.vstr ""),
    created_at := pyGet n.created_at (.vstr ""),
    comment_text := pyGet n.text (.vstr "") }

/-- `page_info` of an edge container: `has_next_page` (default `False`) and
`end_cursor` (default `""`, consumed as the next request's `after`
variable — in this embedding the opaque cursor chain is replaced by the
ordinal of the fetch within the walk). -/
structure IGPageInfo where
  has_next_page : Bool
  end_cursor : String
deriving Repr

/-- An edge container (`edge_media_to_parent_comment` or
`edge_threaded_comments`): the edge list, each edge carrying
`edge.get("node", {})` (`none` models a missing/falsy node, skipped by
`if node:`), plus the page info. -/
structure IGEdgeInfo where
  edges : List (Option IGNode)
  page_info : IGPageInfo
deriving Repr

/-- One response of the parent-comments GraphQL query, after
`graphql_request`: `.empty` is `{}` (also what a transport failure is turned
into) or a response whose `data.shortcode_media` is missing/empty — both make
`fetch_comments` break; `.media none` is a present `shortcode_media` whose
`edge_media_to_parent_comment` is missing/empty (break with a warning);
`.media (some ei)` is a usable container. -/
inductive IGResp where
  | empty
  | media (edgeInfo : Option IGEdgeInfo)
deriving Repr

/-- The Instagram API as an oracle: the parent-comments query by fetch
ordinal, and the threaded-replies query by parent comment id and fetch
ordinal.  `.error` is a transport failure (`graphql_request` catches it and
returns `{}`); for the reply query, `.ok none` is a response whose
`data.comment.edge_threaded_comments` is missing/empty. -/
structure IGOracle where
  pages : Nat → Except Unit IGResp
  replyPages : String → Nat → Except Unit (Option IGEdgeInfo)

/-- `InstagramScraper.fetch_replies` (lines 70-112): the reply cursor walk for
one parent comment, starting at the given page ordinal.  A transport failure
(turned into `{}` by `graphql_request`) and a missing `edge_threaded_comments`
container both break, returning the replies accumulated so far; otherwise the
page's truthy nodes are normalized and appended, and if `has_next_page` the
walk sleeps 2 and continues.  Returns the reply records with the event trace
(`none` = the walk does not exit within `pf` pages). -/
def igFetchReplies (o : IGOracle) (shortcode cid : String) :
    Nat → Nat → Option (List NormComment × List Ev)
  | 0, _ => none
  | pf+1, page =>
    match o.replyPages cid page with
    | .error _ => some ([], [.rfetch cid page])
    | .ok none => some ([], [.rfetch cid page])
    | .ok (some ei) =>
      let recs := ei.edges.filterMap (Option.map (igNormalize shortcode))
      if ei.page_info.has_next_page then
        match igFetchReplies o shortcode cid pf (page+1) with
        | none => none
        | some (rest, tr) => some (recs ++ rest, .rfetch cid page :: .rsleep cid 2 :: tr)
      else some (recs, [.rfetch cid page])

/-- The per-page body of `fetch_comments` (lines 140-158): for each edge in
order, skip falsy nodes; otherwise append the normalized parent record and,
iff the reported child-reply count is positive, run the whole reply walk for
that node's id and append its records immediately after the parent. -/
def igProcessNodes (o : IGOracle) (shortcode : String) (rf : Nat) :
    List (Option IGNode) → Option (List NormComment × List Ev)
  | [] => some ([], [])
  | none :: rest => igProcessNodes o shortcode rf rest
  | some node :: rest =>
    let contrib : Option (List NormComment × List Ev) :=
      if node.childCount > 0 then
        match igFetchReplies o shortcode node.id rf 1 with
        | none => none
        | some (reps, tr) => some (igNormalize shortcode node :: reps, tr)
      else some ([igNormalize shortcode node], [])
    match contrib, igProcessNodes o shortcode rf rest with
    | some (xs, tr1), some (ys, tr2) => some (xs ++ ys, tr1 ++ tr2)
    | _, _ => none

/-- `InstagramScraper.fetch_comments` (lines 114-172): the main cursor walk.
A `{}` response (transport failure), a missing `shortcode_media` and a
missing `edge_media_to_parent_comment` all break, returning the records
accumulated on earlier pages; otherwise the page's nodes are processed
(parents plus expanded replies) and, if `has_next_page`, the walk sleeps 2
and continues with the next page.  `rf` is the fuel of each inner reply
walk, `pf` (the first explicit argument) bounds the main walk. -/
def igFetchComments (o : IGOracle) (shortcode : String) (rf : Nat) :
    Nat → Nat → Option (List NormComment × List Ev)
  | 0, _ => none
  | pf+1, page =>
    match o.pages page with
    | .error _ => some ([], [.fetch page])
    | .ok .empty => some ([], [.fetch page])
    | .ok (.media none) => some ([], [.fetch page])
    | .ok (.media (some ei)) =>
      match igProcessNodes o shortcode rf ei.edges with
      | none => none
      | some (recs, trN) =>
        if ei.page_info.has_next_page then
          match igFetchComments o shortcode rf pf (page+1) with
          | none => none
          | some (rest, tr) => some (recs ++ rest, (.fetch page :: trN) ++ (.sleep 2 :: tr))
        else some (recs, .fetch page :: trN)

/-- `InstagramScraper.scrape_comments` (lines 174-193): build headers (pure)
and run the main walk from its first fetch; the surrounding `try/except`
returns `[]` on an exception, but no step of this pipeline raises one.
`none` marks a walk that does not terminate within the fuel budget. -/
def igScrapeComments (o : IGOracle) (shortcode : String) (rf pf : Nat) :
    Option (List NormComment) :=
  (igFetchComments o shortcode rf pf 1).map (·.1)

/-- Re-application of the Instagram node-normalization (lines 146-151) to an
explicit flat dict, for the idempotence question: `node.get("owner", {})`
yields the empty dict when the key is absent (so the username lookup
defaults), while a present owner value — necessarily a scalar in this flat
model — would make the chained `.get` raise `AttributeError`, modelled as
`none`. -/
def igNormalizeDict (sc : String) (node : PyDict) : Option NormComment :=
  match node.find? (fun p => p.1 == "owner") with
  | some _ => none
  | none =>
    some { post_id := .vstr sc,
           username := .vstr "",
           created_at := dictGet node "created_at" (.vstr ""),
           comment_text := dictGet node "text" (.vstr "") }

/-! ## Shared utility: `extract_post_id` (`src/utils.py` lines 9-36) -/

/-- The character class `[A-Za-z0-9_-]` of the Instagram shortcode pattern. -/
def isShortcodeChar (c : Char) : Bool := c.isAlphanum || c = '_' || c = '-'

/-- Match a literal string at the head of the input, returning the rest. -/
def matchLiteral : List Char → List Char → Option (List Char)
  | [], rest => some rest
  | _ :: _, [] => none
  | l :: ls, c :: cs => if c = l then matchLiteral ls cs else none

/-- Try the regex `instagram\.com/p/([A-Za-z0-9_-]+)` at one start position:
the literal followed by a nonempty greedy run of shortcode characters (the
capture).  `+` is greedy and nothing follows it, so the maximal run is the
capture. -/
def igMatchAt (cs : List Char) : Option String :=
  match matchLiteral "instagram.com/p/".toList cs with
  | none => none
  | some rest =>
    let run := rest.takeWhile isShortcodeChar
    if run.isEmpty then none else some (String.mk run)

/-- Try the regex `tiktok\.com/@[^/]+/video/(\d+)` at one start position.
`[^/]+` is greedy up to the first `/`; no shorter run can be followed by the
literal `/`, so the match is deterministic.  The trailing `\d+` is greedy
with nothing after it, so the maximal digit run is the capture. -/
def ttMatchAt (cs : List Char) : Option String :=
  match matchLiteral "tiktok.com/@".toList cs with
  | none => none
  | some r1 =>
    if (r1.takeWhile (· ≠ '/')).isEmpty then none
    else
      match matchLiteral "/video/".toList (r1.dropWhile (· ≠ '/')) with
      | none => none
      | some r2 =>
        let digits := r2.takeWhile Char.isDigit
        if digits.isEmpty then none else some (String.mk digits)

/-- `re.search` over an unanchored pattern: try the pattern at every start
position from left to right and return the first capture. -/
def reSearch (matchAt : List Char → Option String) : List Char → Option String
  | [] => matchAt []
  | c :: rest =>
    match matchAt (c :: rest) with
    | some r => some r
    | none => reSearch matchAt rest

/-- `extract_post_id(url, platform)` (`src/utils.py` lines 9-36): regex search
per recognized platform tag, `None` otherwise. -/
def extract_post_id (url platform : String) : Option String :=
  if platform = "instagram" then reSearch igMatchAt url.toList
  else if platform = "tiktok" then reSearch ttMatchAt url.toList
  else none

/-! ## Trace predicates and concrete oracles -/

/-- Main-walk events (page fetches and the main inter-page sleeps). -/
def Ev.isMainEv : Ev → Bool
  | .fetch _ => true
  | .sleep _ => true
  | _ => false

/-- A main-walk page-fetch event. -/
def Ev.isFetchEv : Ev → Bool
  | .fetch _ => true
  | _ => false

/-- Reply-walk events (reply-page fetches and their sleeps). -/
def Ev.isReplyEv : Ev → Bool
  | .rfetch _ _ => true
  | .rsleep _ _ => true
  | _ => false

/-- Scan of a trace checking the rate-governance property claimed by the spec:
after any fetch event, another fetch event may only occur once some sleep has
happened in between (`pending` records "a fetch has happened with no sleep
since").  This is deliberately generous — any sleep of any duration counts —
so refuting it refutes the claimed fixed 2-unit delay a fortiori. -/
def sleepSepAux : Bool → List Ev → Bool
  | _, [] => true
  | pending, .fetch _ :: tr => !pending && sleepSepAux true tr
  | pending, .rfetch _ _ :: tr => !pending && sleepSepAux true tr
  | _, .sleep _ :: tr => sleepSepAux false tr
  | _, .rsleep _ _ :: tr => sleepSepAux false tr

/-- A trace in which between any two consecutive page fetches at least one
sleep occurs. -/
def sleepSeparated (tr : List Ev) : Bool := sleepSepAux false tr

/-- Raw top-level comment `comment1` of the mocked platform-B scenario:
`total_reply = 2`, so its replies are fetched eagerly. -/
def rawC1 : RawTT :=
  ⟨some (.vstr "c1"), some (.vstr "alice"), some (.vstr "Alice"), some (.vstr "first"),
   some (.vint 100), some (.vstr "a.jpg"), some (.vint 2)⟩

/-- Raw reply `comment1-reply1`. -/
def rawR1 : RawTT :=
  ⟨some (.vstr "r1"), some (.vstr "bob"), none, some (.vstr "reply one"),
   some (.vint 101), none, some (.vint 0)⟩

/-- Raw reply `comment1-reply2`. -/
def rawR2 : RawTT :=
  ⟨some (.vstr "r2"), some (.vstr "carol"), none, some (.vstr "reply two"),
   some (.vint 102), none, none⟩

/-- Raw top-level comment `comment2` (no replies). -/
def rawC2 : RawTT :=
  ⟨some (.vstr "c2"), some (.vstr "dave"), none, some (.vstr "second"),
   some (.vint 103), none, some (.vint 0)⟩

/-- The mocked platform-B API of the end-to-end scenario: page 1 carries
`comment1` (with `total_reply = 2`) and `comment2` and reports
`has_more = false`; the reply endpoint serves `comment1`'s two replies on its
page 1 and nothing afterwards; every other page is empty and exhausted. -/
def ttOracleMock : TTOracle where
  pages := fun n =>
    match n with
    | 1 => .ok ⟨.vstr "cap", .vstr "http://v", some [rawC1, rawC2], false⟩
    | _ => .ok ⟨.vnull, .vnull, some [], false⟩
  replyPages := fun cid page =>
    match cid, page with
    | .vstr "c1", 1 => .ok [rawR1, rawR2]
    | _, _ => .ok []

/-- A platform-B API whose final page is page 2: page 1 has one comment and
`has_more = true`, page 2 has one comment and reports `has_more = false`. -/
def ttOracleLastPage : TTOracle where
  pages := fun n =>
    match n with
    | 1 => .ok ⟨.vnull, .vnull, some [rawC2], true⟩
    | 2 => .ok ⟨.vnull, .vnull, some [rawR1], false⟩
    | _ => .ok ⟨.vnull, .vnull, some [], false⟩
  replyPages := fun _ _ => .ok []

/-- A platform-B API that returns a zero-item page 2 while still reporting
`has_more = true`, then an exhausted page 3. -/
def ttOracleEmptyMid : TTOracle where
  pages := fun n =>
    match n with
    | 1 => .ok ⟨.vnull, .vnull, some [rawC2], true⟩
    | 2 => .ok ⟨.vnull, .vnull, some [], true⟩
    | _ => .ok ⟨.vnull, .vnull, some [], false⟩
  replyPages := fun _ _ => .ok []

/-- A platform-B API whose page-1 comment has no `user` object at all (the
jmespath paths `user.unique_id` and `create_time` are absent). -/
def ttOracleNullUser : TTOracle where
  pages := fun n =>
    match n with
    | 1 => .ok ⟨.vnull, .vnull,
        some [⟨some (.vstr "c"), none, none, some (.vstr "hi"), none, none, none⟩], false⟩
    | _ => .ok ⟨.vnull, .vnull, some [], false⟩
  replyPages := fun _ _ => .ok []

/-- A childless parsed Instagram node. -/
def igNodeA : IGNode := ⟨"p1", some (.vstr "eve"), some (.vint 7), some (.vstr "top"), 0⟩

/-- An Instagram node whose `created_at` key is present but holds an explicit
JSON null. -/
def igNodeNullTime : IGNode := ⟨"p2", some (.vstr "bob"), some .vnull, some (.vstr "yo"), 0⟩

/-- A platform-A API whose single comment node carries a null `created_at`. -/
def igOracleNullTime : IGOracle where
  pages := fun n =>
    match n with
    | 1 => .ok (.media (some ⟨[some igNodeNullTime], ⟨false, ""⟩⟩))
    | _ => .ok .empty
  replyPages := fun _ _ => .ok none

/-- An Instagram node reporting two threaded replies. -/
def igNodeParent : IGNode := ⟨"par", some (.vstr "ann"), some (.vint 1), some (.vstr "parent"), 2⟩

/-- Reply nodes for `igNodeParent`. -/
def igNodeReplyA : IGNode := ⟨"ra", some (.vstr "ben"), some (.vint 2), some (.vstr "r a"), 0⟩

def igNodeReplyB : IGNode := ⟨"rb", some (.vstr "cyd"), some (.vint 3), some (.vstr "r b"), 0⟩

/-- A platform-A API with one parent comment whose two replies arrive on two
reply pages (page 1 reports `has_next_page = true`, page 2 closes the walk),
followed by a second childless parent on the same main page. -/
def igOracleReplies : IGOracle where
  pages := fun n =>
    match n with
    | 1 => .ok (.media (some ⟨[some igNodeParent, some igNodeA], ⟨false, ""⟩⟩))
    | _ => .ok .empty
  replyPages := fun cid page =>
    match cid, page with
    | "par", 1 => .ok (some ⟨[some igNodeReplyA], ⟨true, "rc"⟩⟩)
    | "par", 2 => .ok (some ⟨[some igNodeReplyB], ⟨false, ""⟩⟩)
    | _, _ => .ok none

/-- The parsed tree of `comment1` under `ttOracleMock`: the jmespath values
with the two replies attached as owned children. -/
def ttMockC1 : TTComment :=
  .mk (.vstr "c1") (.vstr "alice") (.vstr "Alice") (.vstr "first") (.vint 100)
    (.vstr "a.jpg") (.vint 2)
    [.mk (.vstr "r1") (.vstr "bob") .vnull (.vstr "reply one") (.vint 101) .vnull (.vint 0) [],
     .mk (.vstr "r2") (.vstr "carol") .vnull (.vstr "reply two") (.vint 102) .vnull .vnull []]

/-- The parsed tree of `comment2` under `ttOracleMock` (no replies). -/
def ttMockC2 : TTComment :=
  .mk (.vstr "c2") (.vstr "dave") .vnull (.vstr "second") (.vint 103) .vnull (.vint 0) []

/-- A platform-A API returning a zero-node page 1 that still reports
`has_next_page = true`, then an exhausted page 2. -/
def igOracleEmptyMid : IGOracle where
  pages := fun n =>
    match n with
    | 1 => .ok (.media (some ⟨[], ⟨true, "x"⟩⟩))
    | _ => .ok .empty
  replyPages := fun _ _ => .ok none

/-- A platform-B API with no comments at all (every page empty and
exhausted). -/
def ttOracleTrivial : TTOracle where
  pages := fun _ => .ok ⟨.vnull, .vnull, some [], false⟩
  replyPages := fun _ _ => .ok []

/-- Pointwise override turning the `has_more` flag of the page-1 response of a
platform-B oracle into a fixed boolean, leaving everything else (later pages,
the reply endpoint, page 1's comments) untouched. -/
def withPage1HasMore (o : TTOracle) (b : Bool) : TTOracle :=
  { o with
    pages := fun n =>
      if n = 1 then (o.pages 1).map (fun r => { r with has_more := b }) else o.pages n }

/-- Extended platform-A response model: like `IGResp` but with a `malformed`
case for a response whose page parsing raises an exception NOT in
`(KeyError, TypeError)` — e.g. a node with `"owner": null` makes line 148's
`node.get("owner", {}).get("username", "")` raise `AttributeError`, a null
`edge_threaded_comments` does the same at line 154, and a non-dict JSON body
breaks the line-129 `.get` chain outside the `try` altogether.  None of these
are caught inside `fetch_comments`, so the exception escapes the walker. -/
inductive IGRespX where
  | empty
  | media (edgeInfo : Option IGEdgeInfo)
  | malformed
deriving Repr

/-- The Instagram API oracle for the extended response model. -/
structure IGOracleX where
  pages : Nat → Except Unit IGRespX
  replyPages : String → Nat → Except Unit (Option IGEdgeInfo)

/-- The reply-endpoint view of an extended oracle, packaged as a plain
`IGOracle` so the unchanged reply walk and node processing can run over it
(they never consult the parent-comments endpoint). -/
def IGOracleX.toReplyOracle (o : IGOracleX) : IGOracle :=
  ⟨fun _ => .ok .empty, o.replyPages⟩

/-- Outcome of one `fetch_comments` call in the extended model: either the
function returned its accumulated records, or an uncaught exception escaped
it.  Both carry the event trace produced before the return/raise. -/
inductive IGWalkResult where
  | finished (recs : List NormComment) (tr : List Ev)
  | raised (tr : List Ev)
deriving DecidableEq, Repr

/-- `InstagramScraper.fetch_comments` (lines 114-172) over the extended
response model: identical to `igFetchComments` on the shared response shapes,
and on a `malformed` page the uncaught exception aborts the call — the
records accumulated so far are lost with it (only the trace of performed
side effects remains). -/
def igFetchCommentsX (o : IGOracleX) (sc : String) (rf : Nat) :
    Nat → Nat → Option IGWalkResult
  | 0, _ => none
  | pf+1, page =>
    match o.pages page with
    | .error _ => some (.finished [] [.fetch page])
    | .ok .empty => some (.finished [] [.fetch page])
    | .ok .malformed => some (.raised [.fetch page])
    | .ok (.media none) => some (.finished [] [.fetch page])
    | .ok (.media (some ei)) =>
      match igProcessNodes o.toReplyOracle sc rf ei.edges with
      | none => none
      | some (recs, trN) =>
        if ei.page_info.has_next_page then
          match igFetchCommentsX o sc rf pf (page+1) with
          | none => none
          | some (.finished rest tr) =>
            some (.finished (recs ++ rest) ((.fetch page :: trN) ++ (.sleep 2 :: tr)))
          | some (.raised tr) => some (.raised ((.fetch page :: trN) ++ (.sleep 2 :: tr)))
        else some (.finished recs (.fetch page :: trN))

/-- `InstagramScraper.scrape_comments` (lines 174-193) over the extended
model: a walk that returns yields its records, and a walk that raises is
caught by the line-191 `except Exception`, which returns the EMPTY list —
the partial records accumulated before the failure are discarded. -/
def igScrapeCommentsX (o : IGOracleX) (sc : String) (rf pf : Nat) :
    Option (List NormComment) :=
  match igFetchCommentsX o sc rf pf 1 with
  | none => none
  | some (.finished recs _) => some recs
  | some (.raised _) => some []

/-- The evident inclusion of the original response model into the extended
one. -/
def IGResp.toX : IGResp → IGRespX
  | .empty => .empty
  | .media ei => .media ei

/-- An original oracle viewed as an extended oracle (no malformed pages). -/
def IGOracle.toX (o : IGOracle) : IGOracleX :=
  ⟨fun n => (o.pages n).map IGResp.toX, o.replyPages⟩

/-- Unfolding of the `get_all_comments` loop at a page whose `has_more` is
falsy: the loop breaks, discarding that page's comments. -/
lemma ttLoop_stop (o : TTOracle) (fuel pf page : Nat)
    (h : (ttGetComments o fuel page).has_more = false) :
    ttLoop o fuel (pf+1) page = (some [], [.fetch page]) := by
  simp [ttLoop, h]

/-- Unfolding of the `get_all_comments` loop at a page whose `has_more` is
truthy: the page's comments are appended and the loop continues. -/
lemma ttLoop_cont (o : TTOracle) (fuel pf page : Nat)
    (h : (ttGetComments o fuel page).has_more = true) :
    ttLoop o fuel (pf+1) page =
      (((ttGetComments o fuel page).comments ++ ·) <$> (ttLoop o fuel pf (page+1)).1,
       .fetch page :: (ttLoop o fuel pf (page+1)).2) := by
  simp [ttLoop, h]

/-- Full characterization of the `get_all_comments` loop: if pages
`start .. K-1` report `has_more` and page `K` does not, the loop fetches
exactly pages `start .. K` and accumulates the comments of pages
`start .. K-1` (page `K`'s comments are dropped by the break). -/
lemma ttLoop_char (o : TTOracle) (fuel : Nat) :
    ∀ pf start K, start ≤ K → K + 1 - start ≤ pf →
      (∀ j, start ≤ j → j < K → (ttGetComments o fuel j).has_more = true) →
      (ttGetComments o fuel K).has_more = false →
      ttLoop o fuel pf start =
        (some ((List.range' start (K - start)).flatMap fun j =>
            (ttGetComments o fuel j).comments),
         (List.range' start (K + 1 - start)).map .fetch) := by
  intro pf
  induction pf with
  | zero => intro start K h1 h2 _ _; omega
  | succ pf ih =>
    intro start K h1 h2 hmid hK
    rcases Nat.eq_or_lt_of_le h1 with heq | hlt
    · subst heq
      have h0 : start - start = 0 := by omega
      have h1' : start + 1 - start = 1 := by omega
      rw [ttLoop_stop o fuel pf start hK, h0, h1']
      simp [List.range'_succ]
    · have hm : (ttGetComments o fuel start).has_more = true := hmid start le_rfl hlt
      rw [ttLoop_cont o fuel pf start hm]
      rw [ih (start+1) K (by omega) (by omega) (fun j hj hj' => hmid j (by omega) hj') hK]
      have e1 : K - start = (K - (start+1)) + 1 := by omega
      have e2 : K + 1 - start = (K + 1 - (start+1)) + 1 := by omega
      rw [e1, e2, List.range'_succ, List.range'_succ]
      simp [List.flatMap_cons]

/-- If the `get_all_comments` loop exits within its fuel budget, some visited
page (at or after the start page) reported a falsy `has_more`. -/
lemma ttLoop_some_stop (o : TTOracle) (fuel : Nat) :
    ∀ pf start l tr, ttLoop o fuel pf start = (some l, tr) →
      ∃ K, start ≤ K ∧ (ttGetComments o fuel K).has_more = false := by
  intro pf
  induction pf with
  | zero => intro start l tr h; simp [ttLoop] at h
  | succ pf ih =>
    intro start l tr h
    by_cases hm : (ttGetComments o fuel start).has_more = true
    · rw [ttLoop_cont o fuel pf start hm] at h
      obtain ⟨l', hl'⟩ : ∃ l', (ttLoop o fuel pf (start+1)).1 = some l' := by
        rcases h' : (ttLoop o fuel pf (start+1)).1 with _ | l'
        · rw [h'] at h; simp at h
        · exact ⟨l', rfl⟩
      obtain ⟨K, hK1, hK2⟩ := ih (start+1) l' (ttLoop o fuel pf (start+1)).2 (by
        rcases hEq : ttLoop o fuel pf (start+1) with ⟨r1, r2⟩
        rw [hEq] at hl'; simp at hl'; simp [hl'])
      exact ⟨K, by omega, hK2⟩
    · exact ⟨start, le_rfl, by simpa using hm⟩

/-- The projections of a parsed page that do not read `has_more` are
insensitive to the response's `has_more` flag. -/
lemma ttPageMatch_flag (X : Except Unit (List TTComment)) (cap vu : Val) (b1 b2 : Bool) :
    ((match X with
      | .error _ => (⟨.vstr "", .vstr "", [], false⟩ : TTComments)
      | .ok cs => ⟨cap, vu, cs, b1⟩).comments =
     (match X with
      | .error _ => (⟨.vstr "", .vstr "", [], false⟩ : TTComments)
      | .ok cs => ⟨cap, vu, cs, b2⟩).comments) ∧
    ((match X with
      | .error _ => (⟨.vstr "", .vstr "", [], false⟩ : TTComments)
      | .ok cs => ⟨cap, vu, cs, b1⟩).caption =
     (match X with
      | .error _ => (⟨.vstr "", .vstr "", [], false⟩ : TTComments)
      | .ok cs => ⟨cap, vu, cs, b2⟩).caption) ∧
    ((match X with
      | .error _ => (⟨.vstr "", .vstr "", [], false⟩ : TTComments)
      | .ok cs => ⟨cap, vu, cs, b1⟩).video_url =
     (match X with
      | .error _ => (⟨.vstr "", .vstr "", [], false⟩ : TTComments)
      | .ok cs => ⟨cap, vu, cs, b2⟩).video_url) := by
  cases X <;> simp

/-- Overriding the page-1 `has_more` flag leaves every other page fetch
untouched. -/
lemma ttGetComments_withPage1_ne (o : TTOracle) (b : Bool) (fuel n : Nat) (hn : n ≠ 1) :
    ttGetComments (withPage1HasMore o b) fuel n = ttGetComments o fuel n := by
  unfold ttGetComments withPage1HasMore
  simp [hn]

/-- Overriding the page-1 `has_more` flag changes neither page 1's parsed
comments nor its caption and url. -/
lemma ttGetComments_withPage1_one (o : TTOracle) (b : Bool) (fuel : Nat) :
    (ttGetComments (withPage1HasMore o b) fuel 1).comments = (ttGetComments o fuel 1).comments ∧
    (ttGetComments (withPage1HasMore o b) fuel 1).caption = (ttGetComments o fuel 1).caption ∧
    (ttGetComments (withPage1HasMore o b) fuel 1).video_url =
      (ttGetComments o fuel 1).video_url := by
  unfold ttGetComments withPage1HasMore
  simp only [if_pos rfl]
  cases h : o.pages 1 with
  | error e => simp [Except.map]
  | ok resp =>
    obtain ⟨cap, vu, cmts, hm⟩ := resp
    simp only [Except.map]
    cases cmts with
    | none => simp
    | some raws =>
      simp only []
      exact ttPageMatch_flag _ cap vu b hm

/-- The `get_all_comments` loop never touches page 1, so the page-1 flag
override is invisible to it. -/
lemma ttLoop_withPage1 (o : TTOracle) (b : Bool) (fuel : Nat) :
    ∀ pf page, 2 ≤ page →
      ttLoop (withPage1HasMore o b) fuel pf page = ttLoop o fuel pf page := by
  intro pf
  induction pf with
  | zero => intro page _; rfl
  | succ pf ih =>
    intro page hp
    have hg := ttGetComments_withPage1_ne o b fuel page (by omega)
    simp only [ttLoop, hg, ih (page+1) (by omega)]

/-- One-step unfolding of the Instagram main walk at positive fuel. -/
lemma igFetchComments_succ (o : IGOracle) (sc : String) (rf pf page : Nat) :
    igFetchComments o sc rf (pf+1) page =
      match o.pages page with
      | .error _ => some ([], [.fetch page])
      | .ok .empty => some ([], [.fetch page])
      | .ok (.media none) => some ([], [.fetch page])
      | .ok (.media (some ei)) =>
        match igProcessNodes o sc rf ei.edges with
        | none => none
        | some (recs, trN) =>
          if ei.page_info.has_next_page then
            match igFetchComments o sc rf pf (page+1) with
            | none => none
            | some (rest, tr) => some (recs ++ rest, (.fetch page :: trN) ++ (.sleep 2 :: tr))
          else some (recs, .fetch page :: trN) := rfl

/-- One-step unfolding of the Instagram reply walk at positive fuel. -/
lemma igFetchReplies_succ (o : IGOracle) (sc cid : String) (pf page : Nat) :
    igFetchReplies o sc cid (pf+1) page =
      match o.replyPages cid page with
      | .error _ => some ([], [.rfetch cid page])
      | .ok none => some ([], [.rfetch cid page])
      | .ok (some ei) =>
        if ei.page_info.has_next_page then
          match igFetchReplies o sc cid pf (page+1) with
          | none => none
          | some (rest, tr) =>
            some (ei.edges.filterMap (Option.map (igNormalize sc)) ++ rest,
              .rfetch cid page :: .rsleep cid 2 :: tr)
        else some (ei.edges.filterMap (Option.map (igNormalize sc)), [.rfetch cid page]) := rfl

/-- The TikTok `get_all_comments` loop emits nothing but page-fetch events —
in particular no sleep of any kind. -/
lemma ttLoop_trace_fetch (o : TTOracle) (fuel : Nat) :
    ∀ pf page, ((ttLoop o fuel pf page).2).all Ev.isFetchEv = true := by
  intro pf
  induction pf with
  | zero => intro page; rfl
  | succ pf ih =>
    intro page
    by_cases hm : (ttGetComments o fuel page).has_more
    · rw [ttLoop_cont o fuel pf page hm]
      simp only [List.all_cons, ih (page+1)]
      rfl
    · rw [ttLoop_stop o fuel pf page (by simpa using hm)]
      rfl

/-- A completed Instagram reply walk emits only reply-walk events, and its
consecutive reply fetches are separated by sleeps. -/
lemma igFetchReplies_trace (o : IGOracle) (sc cid : String) :
    ∀ pf page res tr, igFetchReplies o sc cid pf page = some (res, tr) →
      tr.all Ev.isReplyEv = true ∧ sleepSepAux false tr = true := by
  intro pf
  induction pf with
  | zero => intro page res tr h; simp [igFetchReplies] at h
  | succ pf ih =>
    intro page res tr h
    rw [igFetchReplies_succ] at h
    cases hr : o.replyPages cid page with
    | error e =>
      rw [hr] at h
      simp at h
      obtain ⟨_, h2⟩ := h
      subst h2
      exact ⟨rfl, rfl⟩
    | ok oei =>
      rw [hr] at h
      cases oei with
      | none =>
        simp at h
        obtain ⟨_, h2⟩ := h
        subst h2
        exact ⟨rfl, rfl⟩
      | some ei =>
        simp only [] at h
        by_cases hnx : ei.page_info.has_next_page
        · rw [if_pos hnx] at h
          cases hrec : igFetchReplies o sc cid pf (page+1) with
          | none => rw [hrec] at h; simp at h
          | some p =>
            obtain ⟨rest, tr'⟩ := p
            rw [hrec] at h
            simp at h
            obtain ⟨_, h2⟩ := h
            subst h2
            obtain ⟨ihall, ihsep⟩ := ih (page+1) rest tr' hrec
            refine ⟨?_, ?_⟩
            · simp only [List.all_cons, ihall]; rfl
            · simpa [sleepSepAux] using ihsep
        · rw [if_neg hnx] at h
          simp at h
          obtain ⟨_, h2⟩ := h
          subst h2
          exact ⟨rfl, rfl⟩

/-- One-step unfolding of the per-page node processing at a truthy node. -/
lemma igProcessNodes_cons_some (o : IGOracle) (sc : String) (rf : Nat)
    (node : IGNode) (rest : List (Option IGNode)) :
    igProcessNodes o sc rf (some node :: rest) =
      match (if node.childCount > 0 then
               match igFetchReplies o sc node.id rf 1 with
               | none => none
               | some (reps, tr) => some (igNormalize sc node :: reps, tr)
             else some ([igNormalize sc node], [])),
            igProcessNodes o sc rf rest with
      | some (xs, tr1), some (ys, tr2) => some (xs ++ ys, tr1 ++ tr2)
      | _, _ => none := rfl

/-- Node processing emits only reply-walk events (its fetches and sleeps all
belong to the inner reply walks). -/
lemma igProcessNodes_trace (o : IGOracle) (sc : String) (rf : Nat) :
    ∀ ns res tr, igProcessNodes o sc rf ns = some (res, tr) →
      tr.all Ev.isReplyEv = true := by
  intro ns
  induction ns with
  | nil =>
    intro res tr h
    simp [igProcessNodes] at h
    obtain ⟨_, h2⟩ := h
    subst h2
    rfl
  | cons x rest ih =>
    intro res tr h
    cases x with
    | none => exact ih res tr h
    | some node =>
      rw [igProcessNodes_cons_some] at h
      by_cases hcc : node.childCount > 0
      · rw [if_pos hcc] at h
        cases hfr : igFetchReplies o sc node.id rf 1 with
        | none => rw [hfr] at h; simp at h
        | some p =>
          obtain ⟨reps, tr1⟩ := p
          rw [hfr] at h
          cases hrest : igProcessNodes o sc rf rest with
          | none => rw [hrest] at h; simp at h
          | some q =>
            obtain ⟨ys, tr2⟩ := q
            rw [hrest] at h
            simp at h
            obtain ⟨_, h2⟩ := h
            subst h2
            rw [List.all_append]
            simp only [Bool.and_eq_true]
            exact ⟨(igFetchReplies_trace o sc node.id rf 1 reps tr1 hfr).1, ih ys tr2 hrest⟩
      · rw [if_neg hcc] at h
        cases hrest : igProcessNodes o sc rf rest with
        | none => rw [hrest] at h; simp at h
        | some q =>
          obtain ⟨ys, tr2⟩ := q
          rw [hrest] at h
          simp at h
          obtain ⟨_, h2⟩ := h
          subst h2
          simpa using ih ys tr2 hrest

/-- A trace of reply-walk events contains no main-walk events. -/
lemma filter_main_of_replyEv (tr : List Ev) (h : tr.all Ev.isReplyEv = true) :
    tr.filter Ev.isMainEv = [] := by
  rw [List.filter_eq_nil_iff]
  intro e he
  have := (List.all_eq_true.mp h) e he
  cases e <;> simp_all [Ev.isReplyEv, Ev.isMainEv]

/-- Restricted to main-walk events, a completed Instagram main walk is
sleep-separated: a sleep occurs between any two consecutive main-page
fetches. -/
lemma igFetchComments_mainSleepSep (o : IGOracle) (sc : String) (rf : Nat) :
    ∀ pf page res tr, igFetchComments o sc rf pf page = some (res, tr) →
      sleepSepAux false (tr.filter Ev.isMainEv) = true := by
  intro pf
  induction pf with
  | zero => intro page res tr h; simp [igFetchComments] at h
  | succ pf ih =>
    intro page res tr h
    rw [igFetchComments_succ] at h
    cases hr : o.pages page with
    | error e =>
      rw [hr] at h; simp at h
      obtain ⟨_, h2⟩ := h
      subst h2
      rfl
    | ok resp =>
      rw [hr] at h
      cases resp with
      | empty =>
        simp at h
        obtain ⟨_, h2⟩ := h
        subst h2
        rfl
      | media oei =>
        cases oei with
        | none =>
          simp at h
          obtain ⟨_, h2⟩ := h
          subst h2
          rfl
        | some ei =>
          simp only [] at h
          cases hpn : igProcessNodes o sc rf ei.edges with
          | none => rw [hpn] at h; simp at h
          | some p =>
            obtain ⟨recs, trN⟩ := p
            rw [hpn] at h
            simp only [] at h
            have htrN : trN.filter Ev.isMainEv = [] :=
              filter_main_of_replyEv trN (igProcessNodes_trace o sc rf ei.edges recs trN hpn)
            by_cases hnx : ei.page_info.has_next_page
            · rw [if_pos hnx] at h
              cases hrec : igFetchComments o sc rf pf (page+1) with
              | none => rw [hrec] at h; simp at h
              | some q =>
                obtain ⟨rest, tr2⟩ := q
                rw [hrec] at h
                simp at h
                obtain ⟨_, h2⟩ := h
                subst h2
                have ihsep := ih (page+1) rest tr2 hrec
                simp only [List.filter_append, List.filter_cons, htrN]
                simp only [show Ev.isMainEv (.fetch page) = true from rfl,
                  show Ev.isMainEv (.sleep 2) = true from rfl]
                simpa [sleepSepAux] using ihsep
            · rw [if_neg hnx] at h
              simp at h
              obtain ⟨_, h2⟩ := h
              subst h2
              simp only [List.filter_cons, htrN,
                show Ev.isMainEv (.fetch page) = true from rfl]
              rfl

/-- Node processing distributes over list append (the per-node contributions
are concatenated in order). -/
lemma igProcessNodes_append (o : IGOracle) (sc : String) (rf : Nat) :
    ∀ xs ys A trA B trB,
      igProcessNodes o sc rf xs = some (A, trA) →
      igProcessNodes o sc rf ys = some (B, trB) →
      igProcessNodes o sc rf (xs ++ ys) = some (A ++ B, trA ++ trB) := by
  intro xs
  induction xs with
  | nil =>
    intro ys A trA B trB h1 h2
    simp [igProcessNodes] at h1
    obtain ⟨hA, hT⟩ := h1
    subst hA; subst hT
    simpa using h2
  | cons x rest ih =>
    intro ys A trA B trB h1 h2
    cases x with
    | none =>
      have : (none :: rest) ++ ys = none :: (rest ++ ys) := rfl
      rw [this]
      show igProcessNodes o sc rf (rest ++ ys) = some (A ++ B, trA ++ trB)
      exact ih ys A trA B trB h1 h2
    | some node =>
      rw [igProcessNodes_cons_some] at h1
      by_cases hcc : node.childCount > 0
      · rw [if_pos hcc] at h1
        cases hfr : igFetchReplies o sc node.id rf 1 with
        | none => rw [hfr] at h1; simp at h1
        | some p =>
          obtain ⟨reps, tr1⟩ := p
          rw [hfr] at h1
          cases hrest : igProcessNodes o sc rf rest with
          | none => rw [hrest] at h1; simp at h1
          | some q =>
            obtain ⟨ys', tr2⟩ := q
            rw [hrest] at h1
            simp at h1
            obtain ⟨hA, hT⟩ := h1
            subst hA; subst hT
            have hrec := ih ys ys' tr2 B trB hrest h2
            rw [show (some node :: rest) ++ ys = some node :: (rest ++ ys) from rfl,
              igProcessNodes_cons_some, if_pos hcc, hfr, hrec]
            simp
      · rw [if_neg hcc] at h1
        cases hrest : igProcessNodes o sc rf rest with
        | none => rw [hrest] at h1; simp at h1
        | some q =>
          obtain ⟨ys', tr2⟩ := q
          rw [hrest] at h1
          simp at h1
          obtain ⟨hA, hT⟩ := h1
          subst hA; subst hT
          have hrec := ih ys ys' tr2 B trB hrest h2
          rw [show (some node :: rest) ++ ys = some node :: (rest ++ ys) from rfl,
            igProcessNodes_cons_some, if_neg hcc, hrec]
          simp

/-- A reply walk over pages `start .. start+n` — each served, the first `n`
reporting `has_next_page` and the last one not — returns the normalized
records of those pages concatenated in page order, fetching each page once
with a sleep between consecutive fetches. -/
lemma igFetchReplies_pages (o : IGOracle) (sc cid : String) (ei : Nat → IGEdgeInfo) :
    ∀ n pf start, n < pf →
      (∀ p, start ≤ p → p ≤ start + n → o.replyPages cid p = .ok (some (ei p))) →
      (∀ p, start ≤ p → p < start + n → (ei p).page_info.has_next_page = true) →
      (ei (start + n)).page_info.has_next_page = false →
      igFetchReplies o sc cid pf start =
        some ((List.range' start (n+1)).flatMap
            (fun p => (ei p).edges.filterMap (Option.map (igNormalize sc))),
          (List.range' start n).flatMap (fun p => [.rfetch cid p, .rsleep cid 2]) ++
            [.rfetch cid (start + n)]) := by
  intro n
  induction n with
  | zero =>
    intro pf start hpf hok hmid hlast
    obtain ⟨pf', rfl⟩ : ∃ pf', pf = pf' + 1 := ⟨pf - 1, by omega⟩
    have hl : (ei start).page_info.has_next_page = false := by simpa using hlast
    rw [igFetchReplies_succ, hok start le_rfl (by omega)]
    simp only []
    rw [if_neg (by simp [hl])]
    simp [List.range'_succ]
  | succ n ih =>
    intro pf start hpf hok hmid hlast
    obtain ⟨pf', rfl⟩ : ∃ pf', pf = pf' + 1 := ⟨pf - 1, by omega⟩
    rw [igFetchReplies_succ, hok start le_rfl (by omega)]
    simp only []
    rw [if_pos (hmid start le_rfl (by omega))]
    rw [ih pf' (start+1) (by omega)
        (fun p hp hp' => hok p (by omega) (by omega))
        (fun p hp hp' => hmid p (by omega) (by omega))
        (by rw [show start + 1 + n = start + (n+1) from by omega]; exact hlast)]
    rw [show List.range' start (n+1+1) = start :: List.range' (start+1) (n+1) from
        List.range'_succ ..,
      show List.range' start (n+1) = start :: List.range' (start+1) n from
        List.range'_succ ..]
    simp only [List.flatMap_cons]
    rw [show start + 1 + n = start + (n+1) from by omega]
    simp

/-- `mapM` over `Except` establishes a pointwise property of its outputs. -/
lemma mapM_ok_forall {α β : Type} (f : α → Except Unit β) (P : β → Prop)
    (hf : ∀ a b, f a = .ok b → P b) :
    ∀ (l : List α) (ys : List β), l.mapM f = .ok ys → ∀ y ∈ ys, P y := by
  intro l
  induction l with
  | nil =>
    intro ys h y hy
    rw [List.mapM_nil] at h
    simp only [pure, Except.pure] at h
    cases h
    simp at hy
  | cons a l ih =>
    intro ys h y hy
    rw [List.mapM_cons] at h
    cases hfa : f a with
    | error e => rw [hfa] at h; simp [bind, Except.bind] at h
    | ok b =>
      rw [hfa] at h
      cases hl : l.mapM f with
      | error e => rw [hl] at h; simp [bind, Except.bind] at h
      | ok bs =>
        rw [hl] at h
        simp [bind, Except.bind, pure, Except.pure] at h
        subst h
        rcases List.mem_cons.mp hy with hy | hy
        · exact hy ▸ hf a b hfa
        · exact ih bs hl y hy

/-- One-step unfolding of the TikTok comment parser at positive fuel. -/
lemma ttParseComment_succ (rp : TTReplyFn) (fuel : Nat) (d : RawTT) :
    ttParseComment rp (fuel+1) d =
      match jm d.text with
      | .vstr s =>
        .ok (.mk (jm d.cid) (jm d.user_unique_id) (jm d.user_nickname) (.vstr s)
          (jm d.create_time) (jm d.avatar_url) (jm d.reply_comment_total)
          (if (jm d.reply_comment_total).truthy then ttGetAllReplies rp fuel (jm d.cid) 1
           else []))
      | _ => .error () := rfl

/-- A successfully parsed TikTok comment always carries a string text (the
logging line would have raised on anything else). -/
lemma ttParse_ok_text (rp : TTReplyFn) :
    ∀ fuel d c, ttParseComment rp fuel d = .ok c → ∃ s, c.comment = .vstr s := by
  intro fuel d c h
  cases fuel with
  | zero => simp [ttParseComment] at h
  | succ fuel =>
    rw [ttParseComment_succ] at h
    cases ht : jm d.text with
    | vstr s =>
      rw [ht] at h
      cases h
      exact ⟨s, rfl⟩
    | vnull => rw [ht] at h; cases h
    | vint n => rw [ht] at h; cases h

/-- Every comment of a fetched TikTok page has a string text. -/
lemma ttGetComments_text (o : TTOracle) (fuel p : Nat) :
    ∀ c ∈ (ttGetComments o fuel p).comments, ∃ s, c.comment = .vstr s := by
  intro c hc
  unfold ttGetComments at hc
  cases hr : o.pages p with
  | error e => rw [hr] at hc; simp at hc
  | ok resp =>
    rw [hr] at hc
    simp only [] at hc
    cases hcm : resp.comments with
    | none => rw [hcm] at hc; simp at hc
    | some raws =>
      rw [hcm] at hc
      simp only [] at hc
      cases hq : raws.mapM (ttParseComment o.replyPages fuel) with
      | error e => rw [hq] at hc; simp at hc
      | ok cs =>
        rw [hq] at hc
        simp only [] at hc
        exact mapM_ok_forall _ _ (fun d c h => ttParse_ok_text o.replyPages fuel d c h)
          raws cs hq c hc

/-- Every comment accumulated by the `get_all_comments` loop came from some
fetched page. -/
lemma ttLoop_mem (o : TTOracle) (fuel : Nat) :
    ∀ pf page l, (ttLoop o fuel pf page).1 = some l →
      ∀ c ∈ l, ∃ p', c ∈ (ttGetComments o fuel p').comments := by
  intro pf
  induction pf with
  | zero => intro page l h; simp [ttLoop] at h
  | succ pf ih =>
    intro page l h c hc
    by_cases hm : (ttGetComments o fuel page).has_more
    · rw [ttLoop_cont o fuel pf page hm] at h
      cases hX : (ttLoop o fuel pf (page+1)).1 with
      | none => rw [hX] at h; simp at h
      | some l' =>
        rw [hX] at h
        simp at h
        subst h
        rcases List.mem_append.mp hc with h1 | h2
        · exact ⟨page, h1⟩
        · exact ih (page+1) l' hX c h2
    · rw [ttLoop_stop o fuel pf page (by simpa using hm)] at h
      simp at h
      subst h
      simp at hc

/-- Every record returned by the Instagram reply walk is the normalization of
some node. -/
lemma igFetchReplies_mem (o : IGOracle) (sc cid : String) :
    ∀ pf page res tr, igFetchReplies o sc cid pf page = some (res, tr) →
      ∀ r ∈ res, ∃ node, r = igNormalize sc node := by
  intro pf
  induction pf with
  | zero => intro page res tr h; simp [igFetchReplies] at h
  | succ pf ih =>
    intro page res tr h r hr
    rw [igFetchReplies_succ] at h
    cases hp : o.replyPages cid page with
    | error e =>
      rw [hp] at h; simp at h
      obtain ⟨h1, _⟩ := h
      subst h1
      simp at hr
    | ok oei =>
      rw [hp] at h
      cases oei with
      | none =>
        simp at h
        obtain ⟨h1, _⟩ := h
        subst h1
        simp at hr
      | some ei =>
        simp only [] at h
        by_cases hnx : ei.page_info.has_next_page
        · rw [if_pos hnx] at h
          cases hrec : igFetchReplies o sc cid pf (page+1) with
          | none => rw [hrec] at h; simp at h
          | some q =>
            obtain ⟨rest, tr'⟩ := q
            rw [hrec] at h
            simp at h
            obtain ⟨h1, _⟩ := h
            subst h1
            rcases List.mem_append.mp hr with h1 | h2
            · obtain ⟨a, ha, hae⟩ := List.mem_filterMap.mp h1
              cases a with
              | none => simp at hae
              | some node => exact ⟨node, by simpa using hae.symm⟩
            · exact ih (page+1) rest tr' hrec r h2
        · rw [if_neg hnx] at h
          simp at h
          obtain ⟨h1, _⟩ := h
          subst h1
          obtain ⟨a, ha, hae⟩ := List.mem_filterMap.mp hr
          cases a with
          | none => simp at hae
          | some node => exact ⟨node, by simpa using hae.symm⟩

/-- Every record produced by node processing is the normalization of some
node. -/
lemma igProcessNodes_mem (o : IGOracle) (sc : String) (rf : Nat) :
    ∀ ns res tr, igProcessNodes o sc rf ns = some (res, tr) →
      ∀ r ∈ res, ∃ node, r = igNormalize sc node := by
  intro ns
  induction ns with
  | nil =>
    intro res tr h r hr
    simp [igProcessNodes] at h
    obtain ⟨h1, _⟩ := h
    subst h1
    simp at hr
  | cons x rest ih =>
    intro res tr h r hr
    cases x with
    | none => exact ih res tr h r hr
    | some node =>
      rw [igProcessNodes_cons_some] at h
      by_cases hcc : node.childCount > 0
      · rw [if_pos hcc] at h
        cases hfr : igFetchReplies o sc node.id rf 1 with
        | none => rw [hfr] at h; simp at h
        | some p =>
          obtain ⟨reps, tr1⟩ := p
          rw [hfr] at h
          cases hrest : igProcessNodes o sc rf rest with
          | none => rw [hrest] at h; simp at h
          | some q =>
            obtain ⟨ys, tr2⟩ := q
            rw [hrest] at h
            simp at h
            obtain ⟨h1, _⟩ := h
            subst h1
            rcases List.mem_cons.mp hr with h1 | h2
            · exact ⟨node, h1⟩
            · rcases List.mem_append.mp h2 with h2 | h2
              · exact igFetchReplies_mem o sc node.id rf 1 reps tr1 hfr r h2
              · exact ih ys tr2 hrest r h2
      · rw [if_neg hcc] at h
        cases hrest : igProcessNodes o sc rf rest with
        | none => rw [hrest] at h; simp at h
        | some q =>
          obtain ⟨ys, tr2⟩ := q
          rw [hrest] at h
          simp at h
          obtain ⟨h1, _⟩ := h
          subst h1
          rcases List.mem_cons.mp hr with h1 | h2
          · exact ⟨node, h1⟩
          · exact ih ys tr2 hrest r h2

/-- Every record returned by the Instagram main walk is the normalization of
some node. -/
lemma igFetchComments_mem (o : IGOracle) (sc : String) (rf : Nat) :
    ∀ pf page res tr, igFetchComments o sc rf pf page = some (res, tr) →
      ∀ r ∈ res, ∃ node, r = igNormalize sc node := by
  intro pf
  induction pf with
  | zero => intro page res tr h; simp [igFetchComments] at h
  | succ pf ih =>
    intro page res tr h r hr
    rw [igFetchComments_succ] at h
    cases hp : o.pages page with
    | error e =>
      rw [hp] at h; simp at h
      obtain ⟨h1, _⟩ := h
      subst h1
      simp at hr
    | ok resp =>
      rw [hp] at h
      cases resp with
      | empty =>
        simp at h
        obtain ⟨h1, _⟩ := h
        subst h1
        simp at hr
      | media oei =>
        cases oei with
        | none =>
          simp at h
          obtain ⟨h1, _⟩ := h
          subst h1
          simp at hr
        | some ei =>
          simp only [] at h
          cases hpn : igProcessNodes o sc rf ei.edges with
          | none => rw [hpn] at h; simp at h
          | some p =>
            obtain ⟨recs, trN⟩ := p
            rw [hpn] at h
            simp only [] at h
            by_cases hnx : ei.page_info.has_next_page
            · rw [if_pos hnx] at h
              cases hrec : igFetchComments o sc rf pf (page+1) with
              | none => rw [hrec] at h; simp at h
              | some q =>
                obtain ⟨rest, tr2⟩ := q
                rw [hrec] at h
                simp at h
                obtain ⟨h1, _⟩ := h
                subst h1
                rcases List.mem_append.mp hr with h1 | h2
                · exact igProcessNodes_mem o sc rf ei.edges recs trN hpn r h1
                · exact ih (page+1) rest tr2 hrec r h2
            · rw [if_neg hnx] at h
              simp at h
              obtain ⟨h1, _⟩ := h
              subst h1
              exact igProcessNodes_mem o sc rf ei.edges recs trN hpn r hr

/-! ## Claims -/

/-- Claim C1, counterexample: under the mocked platform-B API with 2 top-level
comments on page 1 (one with `total_reply = 2`) and `has_more = false`,
`scrape_comments` returns a sequence of length 2 — the two top-level records
in order — although the fetched tree flattens in pre-order to 4 records: the
claimed flattening does not happen. -/
theorem ttScrape_mock_scenario_counterexample :
    (ttScrapeComments ttOracleMock "VID" 10 10).map List.length = some 2 ∧
    ((ttGetAllComments ttOracleMock 10 10).1).map
      (fun cs => (ttFlattenList cs.comments).length) = some 4 ∧
    ttScrapeComments ttOracleMock "VID" 10 10 =
      some [⟨.vstr "VID", .vstr "alice", .vint 100, .vstr "first"⟩,
            ⟨.vstr "VID", .vstr "dave", .vint 103, .vstr "second"⟩] :=
  ⟨by decide, by decide, by decide⟩

/-- Claim C1 (amended): `scrape_comments` standardizes ONLY the top-level
comments of the aggregate into the 4-field shape (`created_at` the raw
`create_time`); the fetched replies stay attached to their parents and are
not flattened into the output, whose length is the number of top-level
comments. -/
theorem ttScrape_returns_top_level_only :
    ∀ (o : TTOracle) (aweme_id : String) (fuel pf : Nat) (cs : TTComments),
      (ttGetAllComments o fuel pf).1 = some cs →
      ttScrapeComments o aweme_id fuel pf =
        some (cs.comments.map fun c => ttStandardizeDict aweme_id (ttAsDict c)) ∧
      (ttScrapeComments o aweme_id fuel pf).map List.length = some cs.comments.length := by
  intro o aweme fuel pf cs h
  unfold ttScrapeComments
  rw [h]
  simp

/-- Witness for C1's amended theorem at the mocked oracle. -/
theorem ttScrape_returns_top_level_only_witness :
    ttScrapeComments ttOracleMock "VID" 10 10 =
      some ((⟨.vstr "cap", .vstr "http://v", [ttMockC1, ttMockC2], false⟩ :
        TTComments).comments.map fun c => ttStandardizeDict "VID" (ttAsDict c)) ∧
    (ttScrapeComments ttOracleMock "VID" 10 10).map List.length =
      some (⟨.vstr "cap", .vstr "http://v", [ttMockC1, ttMockC2], false⟩ :
        TTComments).comments.length :=
  ttScrape_returns_top_level_only ttOracleMock "VID" 10 10
    ⟨.vstr "cap", .vstr "http://v", [ttMockC1, ttMockC2], false⟩ rfl

/-- Claim C2, counterexample: with page 2 carrying one comment and reporting
`has_more = false`, `get_all_comments` fetches page 2 (trace `[1, 2]`) but its
aggregate holds only page 1's single comment — the final page's comments are
omitted. -/
theorem ttGetAll_drops_final_page_counterexample :
    ((ttGetAllComments ttOracleLastPage 10 10).1).map (fun cs => cs.comments.length) =
      some 1 ∧
    (ttGetComments ttOracleLastPage 10 2).comments.length = 1 ∧
    (ttGetComments ttOracleLastPage 10 2).has_more = false ∧
    (ttGetAllComments ttOracleLastPage 10 10).2 = [.fetch 1, .fetch 2] :=
  ⟨by decide, by decide, by decide, by decide⟩

/-- Claim C2 (amended): `get_all_comments` fetches pages `1, 2, …, K` where
`K ≥ 2` is the first page after page 1 whose `has_more` is falsy, and returns
page 1's comments concatenated with those of pages `2 .. K-1` in page order;
the comments of page `K` itself — the fetched page that reports
`has_more = false` — are omitted from the aggregate. -/
theorem ttGetAll_concatenates_pages_before_stop :
    ∀ (o : TTOracle) (fuel pf K : Nat), 2 ≤ K → K - 1 ≤ pf →
      (∀ j, 2 ≤ j → j < K → (ttGetComments o fuel j).has_more = true) →
      (ttGetComments o fuel K).has_more = false →
      ((ttGetAllComments o fuel pf).1).map (·.comments) =
        some ((ttGetComments o fuel 1).comments ++
          (List.range' 2 (K - 2)).flatMap fun j => (ttGetComments o fuel j).comments) := by
  intro o fuel pf K h1 h2 hmid hK
  simp only [ttGetAllComments]
  rw [ttLoop_char o fuel pf 2 K h1 (by omega) hmid hK]
  simp

/-- Witness for C2's amended theorem at the two-page oracle (stop at `K = 2`). -/
theorem ttGetAll_concatenates_pages_before_stop_witness :
    ((ttGetAllComments ttOracleLastPage 10 10).1).map (·.comments) =
      some ((ttGetComments ttOracleLastPage 10 1).comments ++
        (List.range' 2 0).flatMap fun j => (ttGetComments ttOracleLastPage 10 j).comments) :=
  ttGetAll_concatenates_pages_before_stop ttOracleLastPage 10 10 2 (by omega) (by omega)
    (fun j hj1 hj2 => by omega) (by decide)

/-- Claim C3, counterexample: page 2 of this platform-B oracle yields zero
comments yet reports `has_more = true`, and the walk does NOT stop there — it
fetches page 3 — so a zero-item page is not an unconditional stop. -/
theorem zero_item_page_no_stop_counterexample :
    (ttGetComments ttOracleEmptyMid 10 2).comments.isEmpty = true ∧
    (ttGetComments ttOracleEmptyMid 10 2).has_more = true ∧
    (ttGetAllComments ttOracleEmptyMid 10 10).2 = [.fetch 1, .fetch 2, .fetch 3] :=
  ⟨by decide, by decide, by decide⟩

/-- Claim C3 (amended): only the TikTok reply walk treats a zero-item page as
an unconditional stop; the TikTok main loop continues past a zero-item page
whose `has_more` is truthy, and the Instagram main walk likewise continues
past a zero-edge page whose `has_next_page` is true (sleeping and fetching
the next page). -/
theorem zero_item_page_stop_behavior :
    (∀ (rp : TTReplyFn) (fuel : Nat) (cid : Val) (page : Nat),
       ttGetReplies rp fuel cid page = [] →
       ttGetAllReplies rp (fuel+1) cid page = []) ∧
    (∀ (o : TTOracle) (fuel pf page : Nat),
       (ttGetComments o fuel page).comments = [] →
       (ttGetComments o fuel page).has_more = true →
       (ttLoop o fuel (pf+1) page).1 = (ttLoop o fuel pf (page+1)).1 ∧
       (ttLoop o fuel (pf+1) page).2 = .fetch page :: (ttLoop o fuel pf (page+1)).2) ∧
    (∀ (o : IGOracle) (sc : String) (rf pf page : Nat) (cur : String),
       o.pages page = .ok (.media (some ⟨[], ⟨true, cur⟩⟩)) →
       igFetchComments o sc rf (pf+1) page =
         (fun p => (p.1, .fetch page :: .sleep 2 :: p.2)) <$>
           igFetchComments o sc rf pf (page+1)) := by
  refine ⟨?_, ?_, ?_⟩
  · intro rp fuel cid page h
    simp [ttGetAllReplies, h]
  · intro o fuel pf page hc hm
    rw [ttLoop_cont o fuel pf page hm]
    constructor
    · rw [hc]
      cases (ttLoop o fuel pf (page+1)).1 <;> simp
    · rfl
  · intro o sc rf pf page cur h
    rw [igFetchComments_succ, h]
    simp only [igProcessNodes]
    cases igFetchComments o sc rf pf (page+1) <;> simp

/-- Witness for C3's amended theorem: the reply-walk stop at an empty reply
endpoint, the main-loop continuation past `ttOracleEmptyMid`'s empty page 2,
and the Instagram continuation past `igOracleEmptyMid`'s empty page 1. -/
theorem zero_item_page_stop_behavior_witness :
    ttGetAllReplies (fun _ _ => .ok []) 4 (.vstr "x") 1 = [] ∧
    ((ttLoop ttOracleEmptyMid 10 9 2).1 = (ttLoop ttOracleEmptyMid 10 8 3).1 ∧
     (ttLoop ttOracleEmptyMid 10 9 2).2 = .fetch 2 :: (ttLoop ttOracleEmptyMid 10 8 3).2) ∧
    igFetchComments igOracleEmptyMid "S" 2 3 1 =
      (fun p => (p.1, .fetch 1 :: .sleep 2 :: p.2)) <$>
        igFetchComments igOracleEmptyMid "S" 2 2 2 :=
  ⟨zero_item_page_stop_behavior.1 (fun _ _ => .ok []) 3 (.vstr "x") 1 rfl,
   zero_item_page_stop_behavior.2.1 ttOracleEmptyMid 10 8 2 rfl rfl,
   zero_item_page_stop_behavior.2.2 igOracleEmptyMid "S" 2 2 1 "x" rfl⟩

/-- Claim C5, counterexample: a platform-B comment whose raw `user` object is
absent yields `username = null` and `created_at = null` in the scraped
output, and a platform-A node whose `created_at` key holds an explicit JSON
null yields `created_at = null` — the empty-string defaulting claimed for
absent/null raw fields does not happen in these cases. -/
theorem normalized_fields_null_counterexample :
    ttScrapeComments ttOracleNullUser "VID" 5 5 =
      some [⟨.vstr "VID", .vnull, .vnull, .vstr "hi"⟩] ∧
    igScrapeComments igOracleNullTime "SC" 5 5 =
      some [⟨.vstr "SC", .vstr "bob", .vnull, .vstr "yo"⟩] ∧
    Val.isNull .vnull = true :=
  ⟨by decide, by decide, rfl⟩

/-- Claim C5 (amended): every output record structurally carries all four
fields; `post_id` is always the supplied id as a string, and platform B's
`comment_text` is always a string (a non-string text aborts its page's
parse).  Every platform-A record is exactly the node normalization, which
defaults to the empty string precisely when the raw key is absent — but a
present null raw value (either platform) passes through as null rather than
being replaced by the empty string. -/
theorem normalized_fields_structure :
    (∀ (o : TTOracle) (aweme_id : String) (fuel pf : Nat) (l : List NormComment)
       (r : NormComment), ttScrapeComments o aweme_id fuel pf = some l → r ∈ l →
       r.post_id = .vstr aweme_id ∧ ∃ s, r.comment_text = .vstr s) ∧
    (∀ (o : IGOracle) (sc : String) (rf pf : Nat) (l : List NormComment) (r : NormComment),
       igScrapeComments o sc rf pf = some l → r ∈ l →
       ∃ node, r = igNormalize sc node) ∧
    (∀ (sc id : String) (k : Nat),
       igNormalize sc ⟨id, none, none, none, k⟩ = ⟨.vstr sc, .vstr "", .vstr "", .vstr ""⟩) := by
  refine ⟨?_, ?_, ?_⟩
  · intro o aweme fuel pf l r hsome hr
    unfold ttScrapeComments at hsome
    cases hga : (ttGetAllComments o fuel pf).1 with
    | none => rw [hga] at hsome; simp at hsome
    | some cs =>
      rw [hga] at hsome
      simp at hsome
      subst hsome
      obtain ⟨c, hc, hrc⟩ := List.mem_map.mp hr
      subst hrc
      refine ⟨rfl, ?_⟩
      have hct : (ttStandardizeDict aweme (ttAsDict c)).comment_text = c.comment := rfl
      rw [hct]
      simp only [ttGetAllComments] at hga
      cases hX : (ttLoop o fuel pf 2).1 with
      | none => rw [hX] at hga; simp at hga
      | some rest =>
        rw [hX] at hga
        simp at hga
        subst hga
        simp only [] at hc
        rcases List.mem_append.mp hc with h1 | h2
        · exact ttGetComments_text o fuel 1 c h1
        · obtain ⟨p', hp'⟩ := ttLoop_mem o fuel pf 2 rest hX c h2
          exact ttGetComments_text o fuel p' c hp'
  · intro o sc rf pf l r hsome hr
    unfold igScrapeComments at hsome
    cases hfc : igFetchComments o sc rf pf 1 with
    | none => rw [hfc] at hsome; simp at hsome
    | some p =>
      obtain ⟨res, tr⟩ := p
      rw [hfc] at hsome
      simp at hsome
      subst hsome
      exact igFetchComments_mem o sc rf pf 1 res tr hfc r hr
  · intro sc id k
    rfl

/-- Witness for C5's amended theorem at the mocked oracle's first record. -/
theorem normalized_fields_structure_witness :
    (⟨.vstr "VID", .vstr "alice", .vint 100, .vstr "first"⟩ : NormComment).post_id =
      .vstr "VID" ∧
    ∃ s, (⟨.vstr "VID", .vstr "alice", .vint 100, .vstr "first"⟩ :
      NormComment).comment_text = .vstr s :=
  normalized_fields_structure.1 ttOracleMock "VID" 10 10
    [⟨.vstr "VID", .vstr "alice", .vint 100, .vstr "first"⟩,
     ⟨.vstr "VID", .vstr "dave", .vint 103, .vstr "second"⟩]
    ⟨.vstr "VID", .vstr "alice", .vint 100, .vstr "first"⟩ (by decide) (by decide)

/-- Claim C6, counterexample: a platform-B walk that fetches three pages in a
row has a trace with no sleep between consecutive fetches — the claimed
fixed inter-page delay is absent on platform B. -/
theorem tiktok_no_delay_counterexample :
    sleepSeparated ((ttGetAllComments ttOracleEmptyMid 10 10).2) = false ∧
    2 ≤ ((ttGetAllComments ttOracleEmptyMid 10 10).2).countP Ev.isFetchEv :=
  ⟨by decide, by decide⟩

/-- Claim C6 (amended): platform B applies no inter-page delay at all — its
walk traces consist solely of page fetches; platform A sleeps (2 units)
between any two consecutive page fetches of its main walk and likewise
within each reply walk, exactly when `has_next_page` is true. -/
theorem interpage_delay_behavior :
    (∀ (o : TTOracle) (fuel pf : Nat),
       ((ttGetAllComments o fuel pf).2).all Ev.isFetchEv = true) ∧
    (∀ (o : IGOracle) (sc : String) (rf pf page : Nat) (res : List NormComment)
       (tr : List Ev), igFetchComments o sc rf pf page = some (res, tr) →
       sleepSepAux false (tr.filter Ev.isMainEv) = true) ∧
    (∀ (o : IGOracle) (sc cid : String) (pf page : Nat) (res : List NormComment)
       (tr : List Ev), igFetchReplies o sc cid pf page = some (res, tr) →
       sleepSeparated tr = true) := by
  refine ⟨?_, ?_, ?_⟩
  · intro o fuel pf
    simp only [ttGetAllComments, List.all_cons, ttLoop_trace_fetch o fuel pf 2]
    rfl
  · intro o sc rf pf page res tr h
    exact igFetchComments_mainSleepSep o sc rf pf page res tr h
  · intro o sc cid pf page res tr h
    exact (igFetchReplies_trace o sc cid pf page res tr h).2

/-- Witness for C6's amended theorem at the reply-bearing Instagram oracle. -/
theorem interpage_delay_behavior_witness :
    sleepSepAux false
      (([Ev.fetch 1, Ev.rfetch "par" 1, Ev.rsleep "par" 2,
         Ev.rfetch "par" 2]).filter Ev.isMainEv) = true ∧
    sleepSeparated [Ev.rfetch "par" 1, Ev.rsleep "par" 2, Ev.rfetch "par" 2] = true :=
  ⟨interpage_delay_behavior.2.1 igOracleReplies "SC" 5 5 1
     [igNormalize "SC" igNodeParent, igNormalize "SC" igNodeReplyA,
      igNormalize "SC" igNodeReplyB, igNormalize "SC" igNodeA]
     [.fetch 1, .rfetch "par" 1, .rsleep "par" 2, .rfetch "par" 2] rfl,
   interpage_delay_behavior.2.2 igOracleReplies "SC" "par" 5 1
     [igNormalize "SC" igNodeReplyA, igNormalize "SC" igNodeReplyB]
     [.rfetch "par" 1, .rsleep "par" 2, .rfetch "par" 2] rfl⟩

/-- Claim C7: node processing places a parent's fully expanded replies
contiguously, immediately after the parent record, between the records of the
preceding and following nodes; the reply walk returns its pages' records in
page-then-position order; and a parent whose reported child-reply count is
zero contributes exactly its own record with no reply-walk events (no reply
fetch happens). -/
theorem ig_reply_expansion_ordering :
    (∀ (o : IGOracle) (sc : String) (rf : Nat) (ns1 ns2 : List (Option IGNode))
       (node : IGNode) (A B reps : List NormComment) (trA trB trR : List Ev),
       igProcessNodes o sc rf ns1 = some (A, trA) →
       igProcessNodes o sc rf ns2 = some (B, trB) →
       node.childCount > 0 →
       igFetchReplies o sc node.id rf 1 = some (reps, trR) →
       igProcessNodes o sc rf (ns1 ++ some node :: ns2) =
         some (A ++ (igNormalize sc node :: reps) ++ B, trA ++ trR ++ trB)) ∧
    (∀ (o : IGOracle) (sc cid : String) (ei : Nat → IGEdgeInfo) (n pf : Nat), n < pf →
       (∀ p, 1 ≤ p → p ≤ 1 + n → o.replyPages cid p = .ok (some (ei p))) →
       (∀ p, 1 ≤ p → p < 1 + n → (ei p).page_info.has_next_page = true) →
       (ei (1 + n)).page_info.has_next_page = false →
       igFetchReplies o sc cid pf 1 =
         some ((List.range' 1 (n+1)).flatMap
             (fun p => (ei p).edges.filterMap (Option.map (igNormalize sc))),
           (List.range' 1 n).flatMap (fun p => [.rfetch cid p, .rsleep cid 2]) ++
             [.rfetch cid (1 + n)])) ∧
    (∀ (o : IGOracle) (sc : String) (rf : Nat) (node : IGNode)
       (rest : List (Option IGNode)), node.childCount = 0 →
       igProcessNodes o sc rf (some node :: rest) =
         (fun p => (igNormalize sc node :: p.1, p.2)) <$> igProcessNodes o sc rf rest) := by
  refine ⟨?_, ?_, ?_⟩
  · intro o sc rf ns1 ns2 node A B reps trA trB trR h1 h2 hcc hR
    have hmid : igProcessNodes o sc rf (some node :: ns2) =
        some ((igNormalize sc node :: reps) ++ B, trR ++ trB) := by
      rw [igProcessNodes_cons_some, if_pos hcc, hR, h2]
    have := igProcessNodes_append o sc rf ns1 (some node :: ns2) A trA
      ((igNormalize sc node :: reps) ++ B) (trR ++ trB) h1 hmid
    rw [this]
    simp
  · intro o sc cid ei n pf hpf hok hmid hlast
    exact igFetchReplies_pages o sc cid ei n pf 1 hpf hok hmid hlast
  · intro o sc rf node rest hcc
    rw [igProcessNodes_cons_some, if_neg (by omega)]
    cases igProcessNodes o sc rf rest with
    | none => rfl
    | some q => obtain ⟨ys, tr2⟩ := q; rfl

/-- Witness for C7 at the reply-bearing Instagram oracle: the parent with two
replies sits contiguously before the trailing childless node. -/
theorem ig_reply_expansion_ordering_witness :
    igProcessNodes igOracleReplies "SC" 5 ([] ++ some igNodeParent :: [some igNodeA]) =
      some ([] ++ (igNormalize "SC" igNodeParent ::
          [igNormalize "SC" igNodeReplyA, igNormalize "SC" igNodeReplyB]) ++
          [igNormalize "SC" igNodeA],
        [] ++ [.rfetch "par" 1, .rsleep "par" 2, .rfetch "par" 2] ++ []) :=
  ig_reply_expansion_ordering.1 igOracleReplies "SC" 5 [] [some igNodeA] igNodeParent
    [] [igNormalize "SC" igNodeA]
    [igNormalize "SC" igNodeReplyA, igNormalize "SC" igNodeReplyB]
    [] [] [.rfetch "par" 1, .rsleep "par" 2, .rfetch "par" 2]
    rfl rfl (by decide) rfl

/-- Claim C8: the concrete Instagram and TikTok URLs extract to the expected
identifiers, an unrecognized platform tag yields `none` for every URL, and
non-matching URLs for either recognized platform yield `none`; the function
is pure, so no network interaction is possible. -/
theorem extract_post_id_spec :
    extract_post_id "https://www.instagram.com/p/DNcgnWvRJ9-/" "instagram" =
      some "DNcgnWvRJ9-" ∧
    extract_post_id "https://www.tiktok.com/@user/video/7539605848159489286" "tiktok" =
      some "7539605848159489286" ∧
    (∀ url platform, platform ≠ "instagram" → platform ≠ "tiktok" →
       extract_post_id url platform = none) ∧
    extract_post_id "https://www.instagram.com/reel/DNcgnWvRJ9-/" "instagram" = none ∧
    extract_post_id "https://www.tiktok.com/@user/photo/7539605848159489286" "tiktok" =
      none ∧
    extract_post_id "not a url" "instagram" = none := by
  refine ⟨by decide, by decide, ?_, by decide, by decide, by decide⟩
  intro url platform h1 h2
  simp [extract_post_id, h1, h2]

/-- Witness for C8's unrecognized-platform branch. -/
theorem extract_post_id_spec_witness :
    extract_post_id "https://www.youtube.com/watch?v=abc" "youtube" = none :=
  extract_post_id_spec.2.2.1 "https://www.youtube.com/watch?v=abc" "youtube"
    (by decide) (by decide)

/-- Claim C9, counterexample: re-applying platform B's standardization to an
already-normalized record does not leave it unchanged — `created_at` and
`comment_text` are blanked because the mapping reads the raw keys
`create_time` and `comment`, which the normalized record does not have. -/
theorem renormalization_not_idempotent_counterexample :
    ttStandardizeDict "X"
        (NormComment.toDict ⟨.vstr "X", .vstr "alice", .vint 5, .vstr "hi"⟩) ≠
      ⟨.vstr "X", .vstr "alice", .vint 5, .vstr "hi"⟩ := by decide

/-- Claim C9 (amended): re-normalizing a normalized record is not a no-op.
Platform B's standardization keeps `post_id` (for the same supplied id) and
`username` but maps `created_at` and `comment_text` to the empty string;
platform A's node mapping keeps `created_at` (whose raw and normalized key
names coincide) but blanks `username` and `comment_text`. -/
theorem renormalization_behavior :
    (∀ (aweme_id : String) (r : NormComment),
       ttStandardizeDict aweme_id r.toDict =
         ⟨.vstr aweme_id, r.username, .vstr "", .vstr ""⟩) ∧
    (∀ (sc : String) (r : NormComment),
       igNormalizeDict sc r.toDict = some ⟨.vstr sc, .vstr "", r.created_at, .vstr ""⟩) :=
  ⟨fun _ _ => rfl, fun _ _ => rfl⟩

/-- Claim C10: `get_all_comments` never branches on page 1's `has_more` —
overriding that flag changes neither the accumulated comments nor the fetch
trace; with any loop budget the walk's first two events are the fetches of
pages 1 and 2; and whenever the walk terminates, some page `K ≥ 2` reported a
falsy `has_more`. -/
theorem ttGetAll_ignores_page1_flag :
    (∀ (o : TTOracle) (b : Bool) (fuel pf : Nat),
       ((ttGetAllComments (withPage1HasMore o b) fuel pf).1).map (·.comments) =
         ((ttGetAllComments o fuel pf).1).map (·.comments) ∧
       (ttGetAllComments (withPage1HasMore o b) fuel pf).2 =
         (ttGetAllComments o fuel pf).2) ∧
    (∀ (o : TTOracle) (fuel pf : Nat),
       ((ttGetAllComments o fuel (pf+1)).2).take 2 = [.fetch 1, .fetch 2]) ∧
    (∀ (o : TTOracle) (fuel pf : Nat) (r : TTComments) (tr : List Ev),
       ttGetAllComments o fuel pf = (some r, tr) →
       ∃ K, 2 ≤ K ∧ (ttGetComments o fuel K).has_more = false) := by
  refine ⟨?_, ?_, ?_⟩
  · intro o b fuel pf
    obtain ⟨e1, e2, e3⟩ := ttGetComments_withPage1_one o b fuel
    simp only [ttGetAllComments]
    rw [ttLoop_withPage1 o b fuel pf 2 le_rfl, e1]
    cases (ttLoop o fuel pf 2).1 <;> simp
  · intro o fuel pf
    simp only [ttGetAllComments]
    by_cases hm : (ttGetComments o fuel 2).has_more
    · rw [ttLoop_cont o fuel pf 2 hm]; rfl
    · rw [ttLoop_stop o fuel pf 2 (by simpa using hm)]; rfl
  · intro o fuel pf r tr h
    simp only [ttGetAllComments] at h
    obtain ⟨l, hl⟩ : ∃ l, (ttLoop o fuel pf 2).1 = some l := by
      rcases h' : (ttLoop o fuel pf 2).1 with _ | l
      · rw [h'] at h; simp at h
      · exact ⟨l, rfl⟩
    obtain ⟨K, hK1, hK2⟩ := ttLoop_some_stop o fuel pf 2 l (ttLoop o fuel pf 2).2 (by
      rcases hEq : ttLoop o fuel pf 2 with ⟨r1, r2⟩
      rw [hEq] at hl; simp at hl; simp [hl])
    exact ⟨K, hK1, hK2⟩

/-- Witness for C10's termination conjunct at the trivial oracle. -/
theorem ttGetAll_ignores_page1_flag_witness :
    ∃ K, 2 ≤ K ∧ (ttGetComments ttOracleTrivial 3 K).has_more = false :=
  ttGetAll_ignores_page1_flag.2.2 ttOracleTrivial 3 3
    ⟨.vnull, .vnull, [], false⟩ [.fetch 1, .fetch 2] rfl

/-- One-step unfolding of the extended Instagram main walk at positive
fuel. -/
lemma igFetchCommentsX_succ (o : IGOracleX) (sc : String) (rf pf page : Nat) :
    igFetchCommentsX o sc rf (pf+1) page =
      match o.pages page with
      | .error _ => some (.finished [] [.fetch page])
      | .ok .empty => some (.finished [] [.fetch page])
      | .ok .malformed => some (.raised [.fetch page])
      | .ok (.media none) => some (.finished [] [.fetch page])
      | .ok (.media (some ei)) =>
        match igProcessNodes o.toReplyOracle sc rf ei.edges with
        | none => none
        | some (recs, trN) =>
          if ei.page_info.has_next_page then
            match igFetchCommentsX o sc rf pf (page+1) with
            | none => none
            | some (.finished rest tr) =>
              some (.finished (recs ++ rest) ((.fetch page :: trN) ++ (.sleep 2 :: tr)))
            | some (.raised tr) => some (.raised ((.fetch page :: trN) ++ (.sleep 2 :: tr)))
          else some (.finished recs (.fetch page :: trN)) := rfl

/-- The reply walk consults only the reply endpoint, so oracles with the
same reply endpoint are interchangeable under it. -/
lemma igFetchReplies_only_replyPages (o1 o2 : IGOracle)
    (h : o1.replyPages = o2.replyPages) (sc cid : String) :
    ∀ pf page, igFetchReplies o1 sc cid pf page = igFetchReplies o2 sc cid pf page := by
  intro pf
  induction pf with
  | zero => intro page; rfl
  | succ pf ih =>
    intro page
    rw [igFetchReplies_succ, igFetchReplies_succ, h, ih (page+1)]

/-- Node processing consults only the reply endpoint. -/
lemma igProcessNodes_only_replyPages (o1 o2 : IGOracle)
    (h : o1.replyPages = o2.replyPages) (sc : String) (rf : Nat) :
    ∀ ns, igProcessNodes o1 sc rf ns = igProcessNodes o2 sc rf ns := by
  intro ns
  induction ns with
  | nil => rfl
  | cons x rest ih =>
    cases x with
    | none => exact ih
    | some node =>
      rw [igProcessNodes_cons_some, igProcessNodes_cons_some, ih,
        igFetchReplies_only_replyPages o1 o2 h sc node.id rf 1]

/-- The extended walk is a conservative extension: on an oracle with no
malformed pages it agrees with the original `igFetchComments` (every outcome
is a `finished` one carrying the same records and trace). -/
lemma igFetchCommentsX_agrees (o : IGOracle) (sc : String) (rf : Nat) :
    ∀ pf page, igFetchCommentsX (IGOracle.toX o) sc rf pf page =
      (igFetchComments o sc rf pf page).map (fun p => .finished p.1 p.2) := by
  intro pf
  induction pf with
  | zero => intro page; rfl
  | succ pf ih =>
    intro page
    rw [igFetchCommentsX_succ, igFetchComments_succ]
    have hpn := igProcessNodes_only_replyPages (IGOracle.toX o).toReplyOracle o rfl sc rf
    cases hr : o.pages page with
    | error e =>
      have hx : (IGOracle.toX o).pages page = .error e := by
        simp [IGOracle.toX, hr, Except.map]
      rw [hx]
      rfl
    | ok resp =>
      have hx : (IGOracle.toX o).pages page = .ok resp.toX := by
        simp [IGOracle.toX, hr, Except.map]
      rw [hx]
      cases resp with
      | empty => rfl
      | media oei =>
        cases oei with
        | none => rfl
        | some ei =>
          simp only [IGResp.toX]
          rw [hpn ei.edges]
          cases hq : igProcessNodes o sc rf ei.edges with
          | none => rfl
          | some p =>
            obtain ⟨recs, trN⟩ := p
            simp only []
            by_cases hnx : ei.page_info.has_next_page
            · rw [if_pos hnx, if_pos hnx, ih (page+1)]
              cases igFetchComments o sc rf pf (page+1) with
              | none => rfl
              | some q => obtain ⟨rest, tr⟩ := q; rfl
            · rw [if_neg hnx, if_neg hnx]
              rfl

/-- The extended scrape agrees with the original one on oracles with no
malformed pages. -/
lemma igScrapeCommentsX_agrees (o : IGOracle) (sc : String) (rf pf : Nat) :
    igScrapeCommentsX (IGOracle.toX o) sc rf pf = igScrapeComments o sc rf pf := by
  unfold igScrapeCommentsX igScrapeComments
  rw [igFetchCommentsX_agrees o sc rf pf 1]
  cases igFetchComments o sc rf pf 1 with
  | none => rfl
  | some p => obtain ⟨recs, tr⟩ := p; rfl

